import Mathlib

/-!
Queue-key encoding of polaris-controller (`pkg/util/controller_utils.go`).

A shallow embedding of the key encoding / decoding helpers of
`pkg/util/controller_utils.go`, followed by theorems about them.

Conventions:

* A Go `string` is a finite byte sequence.  It is embedded as `Str = List Char`,
  one list element per byte, so that `len(s)` is `List.length`, `s[:n]` is
  `List.take n` and `a + b` is `++`.  Every literal of the source is ASCII, so
  its bytes are the characters of the literal.  The functions only ever compare
  elements with the bytes `~` and `/`, hence a statement proved for all lists
  holds for all byte strings.
* A Go result `(v, err)` is embedded as a pair whose last component is an
  `Option Err`; `none` is Go's `nil` error.
* A Go run-time panic (slice bound out of range) is embedded as `Option.none`
  of the whole result.
* Pointers to Kubernetes objects are taken to be non-nil.
-/

namespace Polaris

/-- Go `string`: a sequence of bytes, one list element per byte. -/
abbrev Str := List Char

/-- Errors that the functions of `controller_utils.go` can return. -/
inductive Err where
  /-- Error of `cache.MetaNamespaceKeyFunc`: "object has no meta: ...". -/
  | objectHasNoMeta
  /-- Error of `cache.SplitMetaNamespaceKey`: "unexpected key format: <key>". -/
  | unexpectedKeyFormat (key : Str)
  /-- Error created by `GenResourceMapQueueKey`:
  `errors.New("not invalid kubernetes resource type")`. -/
  | notInvalidKubernetesResourceType
  deriving DecidableEq, Repr

/-- The fields of `metav1.ObjectMeta` that the source reads.  `Annotations` is the
Go map as an association list; a lookup returns the first binding of the key. -/
structure ObjectMeta where
  Namespace : Str
  Name : Str
  Annotations : List (Str × Str)
  deriving DecidableEq, Repr

/-- The dynamic values that reach the `interface{}` parameters of the source. -/
inductive Obj where
  /-- A `cache.DeletedFinalStateUnknown{Key, Obj}` tombstone value. -/
  | DeletedFinalStateUnknown (Key : Str) (Obj : Obj)
  /-- A `cache.ExplicitKey` value. -/
  | ExplicitKey (key : Str)
  /-- A non-nil `*v1.Namespace`. -/
  | Namespace (meta : ObjectMeta)
  /-- A non-nil `*v1.ConfigMap`. -/
  | ConfigMap (meta : ObjectMeta)
  /-- A non-nil `*v1.Service`. -/
  | Service (meta : ObjectMeta)
  /-- A non-nil object of any other type that carries object metadata
  (for instance a `*v1.Pod`). -/
  | OtherObject (meta : ObjectMeta)
  /-- A value without object metadata (untyped `nil`, a number, a plain string,
  a pointer to a tombstone, ...). -/
  | NoMeta
  deriving DecidableEq, Repr

/-! ## Library functions used by the source -/

/-- Go `strings.Split(s, sep)` for a separator `sep` of exactly one byte, which is
the only way the source and `cache.SplitMetaNamespaceKey` call it: the segments of
`s` between consecutive occurrences of `sep`, in order.  The result always has
`strings.Count(s, sep) + 1` elements; `Split("", sep)` is `[""]`. -/
def Split : Str → Char → List Str
  | [], _ => [[]]
  | c :: s, sep =>
    if c = sep then [] :: Split s sep
    else
      match Split s sep with
      | [] => [[c]]
      | seg :: segs => (c :: seg) :: segs

/-- Go `strings.HasPrefix(s, prefix)`. -/
def HasPrefix (s pre : Str) : Bool :=
  pre.length ≤ s.length && s.take pre.length == pre

/-- Go `strings.TrimPrefix(s, prefix)`. -/
def TrimPrefix (s pre : Str) : Str :=
  if HasPrefix s pre then s.drop pre.length else s

/-- Library `meta.Accessor(obj)` of `k8s.io/apimachinery`: the object metadata of a
value, when it has one. -/
def Accessor : Obj → Option ObjectMeta
  | .Namespace m => some m
  | .ConfigMap m => some m
  | .Service m => some m
  | .OtherObject m => some m
  | _ => none

/-- Library `cache.MetaNamespaceKeyFunc(obj)` of `k8s.io/client-go`: an explicit key
is returned as it is; otherwise `<namespace>/<name>` when the namespace is not empty
and `<name>` alone when it is; an object without metadata is an error. -/
def MetaNamespaceKeyFunc (obj : Obj) : Str × Option Err :=
  match obj with
  | .ExplicitKey key => (key, none)
  | _ =>
    match Accessor obj with
    | none => ([], some .objectHasNoMeta)
    | some m =>
      if m.Namespace.length > 0 then (m.Namespace ++ "/".toList ++ m.Name, none)
      else (m.Name, none)

/-- Library `cache.DeletionHandlingMetaNamespaceKeyFunc(obj)` of `k8s.io/client-go`:
a tombstone yields its stored key, any other value goes to
`MetaNamespaceKeyFunc`. -/
def DeletionHandlingMetaNamespaceKeyFunc (obj : Obj) : Str × Option Err :=
  match obj with
  | .DeletedFinalStateUnknown key _ => (key, none)
  | _ => MetaNamespaceKeyFunc obj

/-- Library `cache.SplitMetaNamespaceKey(key)` of `k8s.io/client-go`: splits at `/`;
one part is a name without namespace, two parts are namespace and name, anything
else is an error. -/
def SplitMetaNamespaceKey (key : Str) : Str × Str × Option Err :=
  let parts := Split key '/'
  match parts with
  | [name] => ([], name, none)
  | [ns, name] => (ns, name, none)
  | _ => ([], [], some (.unexpectedKeyFormat key))

/-! ## `pkg/util/controller_utils.go` -/

/-- Package variable `keyFunc = cache.DeletionHandlingMetaNamespaceKeyFunc`. -/
def keyFunc : Obj → Str × Option Err := DeletionHandlingMetaNamespaceKeyFunc

/-- Package variable `NamespacePrefix = "Namespace~"`. -/
def NamespacePrefix : Str := "Namespace~".toList

/-- Package variable `ServicePrefix = "Service~"`. -/
def ServicePrefix : Str := "Service~".toList

/-- Package variable `ConfigMapPrefix = "ConfigMap~"`. -/
def ConfigMapPrefix : Str := "ConfigMap~".toList

/-- Source `GenObjectQueueKey(obj)`. -/
def GenObjectQueueKey (obj : Obj) : Str × Option Err :=
  match keyFunc obj with
  | (_, some err) => ([], some err)
  | (key, none) => (key, none)

/-- Source `GetOriginKeyWithResyncQueueKey(key)`: `key[:len(key)-len("~resync")]`.
The slice expression panics when the bound is negative; that is `none`. -/
def GetOriginKeyWithResyncQueueKey (key : Str) : Option Str :=
  if key.length < "~resync".toList.length then none
  else some (key.take (key.length - "~resync".toList.length))

/-- Source `GenResourceResyncQueueKey(key)`: `key + "~" + "resync"`. -/
def GenResourceResyncQueueKey (key : Str) : Str :=
  key ++ "~".toList ++ "resync".toList

/-- Source `GenQueueKeyWithFlag(svc, flag)`. -/
def GenQueueKeyWithFlag (svc : Obj) (flag : Str) : Str × Option Err :=
  match keyFunc svc with
  | (_, some err) => ([], some err)
  | (key, none) => (key ++ ("~".toList ++ flag), none)

/-- Source `GetResourceRealKeyWithFlag(queueKey)`.  The returned tuple is
`(ss[0], namespace, service, op, err)`.  `ss[0]` and `ss[1]` are read with a default
of `""`; the default is never used because `Split` returns at least one element and
`ss[1]` is only read when `len(ss) != 1`. -/
def GetResourceRealKeyWithFlag (queueKey : Str) : Str × Str × Str × Str × Option Err :=
  if queueKey = [] then ([], [], [], [], none)
  else
    let ss := Split queueKey '~'
    match SplitMetaNamespaceKey (ss.getD 0 []) with
    | (_, _, some err) => ([], [], [], [], some err)
    | (ns, service, none) =>
      let op := if ss.length ≠ 1 then ss.getD 1 [] else []
      (ss.getD 0 [], ns, service, op, none)

/-- Source `GenConfigMapQueueKeyWithFlag(svc, flag)`; `svc` is a non-nil
`*v1.ConfigMap`, given by its metadata. -/
def GenConfigMapQueueKeyWithFlag (svc : ObjectMeta) (flag : Str) : Str × Option Err :=
  match keyFunc (.ConfigMap svc) with
  | (_, some err) => ([], some err)
  | (key, none) => (key ++ ("~".toList ++ flag), none)

/-- Source `GenResourceMapQueueKey(val)`. -/
def GenResourceMapQueueKey (val : Obj) : Str × Option Err :=
  match keyFunc val with
  | (_, some err) => ([], some err)
  | (key, none) =>
    match val with
    | .Namespace _ => (NamespacePrefix ++ key, none)
    | .ConfigMap _ => (ConfigMapPrefix ++ key, none)
    | .Service _ => (ServicePrefix ++ key, none)
    | _ => ([], some .notInvalidKubernetesResourceType)

/-- Source `IsServiceKey(key)`. -/
def IsServiceKey (key : Str) : Str × Bool :=
  if HasPrefix key ServicePrefix then (TrimPrefix key ServicePrefix, true)
  else (key, false)

/-- Source `IsConfigMapKey(key)`. -/
def IsConfigMapKey (key : Str) : Str × Bool :=
  if HasPrefix key ConfigMapPrefix then (TrimPrefix key ConfigMapPrefix, true)
  else (key, false)

/-- Source `GetNamespace(svr)`; `svr` is a non-nil `*v1.Service`, given by its
metadata.  The annotation key `PolarisOverideNamespace` is a constant of the package
that is declared outside `controller_utils.go`; it is a parameter here.  The Go map
read `v, ok := m[key]` is the association-list lookup. -/
def GetNamespace (PolarisOverideNamespace : Str) (svr : ObjectMeta) : Str :=
  match svr.Annotations.lookup PolarisOverideNamespace with
  | some v => if v ≠ [] then v else svr.Namespace
  | none => svr.Namespace

/-- Source `GetServiceName(svr)`; `svr` is a non-nil `*v1.Service`, given by its
metadata.  The annotation key `PolarisOverideService` is a constant of the package
that is declared outside `controller_utils.go`; it is a parameter here. -/
def GetServiceName (PolarisOverideService : Str) (svr : ObjectMeta) : Str :=
  match svr.Annotations.lookup PolarisOverideService with
  | some v => if v ≠ [] then v else svr.Name
  | none => svr.Name

/-! ## Lemmas on the library functions -/

theorem Split_ne_nil (s : Str) (sep : Char) : Split s sep ≠ [] := by
  induction s with
  | nil => simp [Split]
  | cons c s ih =>
    unfold Split
    split
    · simp
    · split <;> simp

theorem Split_of_not_mem (s : Str) (sep : Char) (h : sep ∉ s) : Split s sep = [s] := by
  induction s with
  | nil => simp [Split]
  | cons c s ih =>
    have hc : c ≠ sep := fun e => h (by simp [e])
    have hs : sep ∉ s := fun e => h (by simp [e])
    simp [Split, hc, ih hs]

theorem Split_append_sep (b r : Str) (sep : Char) (h : sep ∉ b) :
    Split (b ++ sep :: r) sep = b :: Split r sep := by
  induction b with
  | nil => simp [Split]
  | cons c b ih =>
    have hc : c ≠ sep := fun e => h (by simp [e])
    have hb : sep ∉ b := fun e => h (by simp [e])
    simp [Split, hc, ih hb]

theorem Split_length (s : Str) (sep : Char) : (Split s sep).length = s.count sep + 1 := by
  induction s with
  | nil => simp [Split]
  | cons c s ih =>
    unfold Split
    by_cases hc : c = sep
    · subst hc
      simp [ih]
    · have hne : (c == sep) = false := by simpa using hc
      simp only [hc, if_false]
      split
      · rename_i heq
        exact absurd heq (Split_ne_nil s sep)
      · rename_i seg segs heq
        rw [heq] at ih
        simp only [List.length_cons] at ih ⊢
        rw [List.count_cons, hne]
        simpa using ih

theorem HasPrefix_iff (s pre : Str) : HasPrefix s pre = true ↔ pre <+: s := by
  unfold HasPrefix
  constructor
  · intro h
    simp only [Bool.and_eq_true, decide_eq_true_eq, beq_iff_eq] at h
    exact ⟨s.drop pre.length, by
      conv_lhs => rw [← h.2, List.length_take, Nat.min_eq_left h.1]
      exact List.take_append_drop _ _⟩
  · rintro ⟨t, rfl⟩
    simp

theorem HasPrefix_append (pre k : Str) : HasPrefix (pre ++ k) pre = true :=
  (HasPrefix_iff _ _).2 ⟨k, rfl⟩

theorem TrimPrefix_append (pre k : Str) : TrimPrefix (pre ++ k) pre = k := by
  simp [TrimPrefix, HasPrefix_append]

theorem IsServiceKey_append (k : Str) : IsServiceKey (ServicePrefix ++ k) = (k, true) := by
  simp [IsServiceKey, HasPrefix_append, TrimPrefix_append]

theorem IsConfigMapKey_append (k : Str) : IsConfigMapKey (ConfigMapPrefix ++ k) = (k, true) := by
  simp [IsConfigMapKey, HasPrefix_append, TrimPrefix_append]

theorem IsServiceKey_unmatched (key : Str) (h : ¬ ServicePrefix <+: key) :
    IsServiceKey key = (key, false) := by
  have : HasPrefix key ServicePrefix = false := by
    rw [← Bool.not_eq_true, HasPrefix_iff]; exact h
  simp [IsServiceKey, this]

theorem IsConfigMapKey_unmatched (key : Str) (h : ¬ ConfigMapPrefix <+: key) :
    IsConfigMapKey key = (key, false) := by
  have : HasPrefix key ConfigMapPrefix = false := by
    rw [← Bool.not_eq_true, HasPrefix_iff]; exact h
  simp [IsConfigMapKey, this]

theorem Split_getD_zero (s : Str) (sep : Char) :
    (Split s sep).getD 0 [] = s.takeWhile (fun c => c != sep) := by
  induction s with
  | nil => simp [Split]
  | cons c s ih =>
    unfold Split
    by_cases hc : c = sep
    · subst hc
      simp
    · simp only [hc, if_false]
      have hcons : List.takeWhile (fun c => c != sep) (c :: s)
          = c :: List.takeWhile (fun c => c != sep) s := by
        simp [List.takeWhile_cons, hc]
      rw [hcons, ← ih]
      split
      · rename_i heq
        exact absurd heq (Split_ne_nil s sep)
      · rename_i seg segs heq
        simp [heq]

theorem SplitMetaNamespaceKey_err_iff (key : Str) :
    (SplitMetaNamespaceKey key).2.2 ≠ none ↔ 2 ≤ key.count '/' := by
  have hlen := Split_length key '/'
  unfold SplitMetaNamespaceKey
  match h : Split key '/' with
  | [] => exact absurd h (Split_ne_nil _ _)
  | [a] =>
    rw [h] at hlen
    simp at hlen
    simp
    omega
  | [a, b] =>
    rw [h] at hlen
    simp at hlen
    simp
    omega
  | a :: b :: c :: r =>
    rw [h] at hlen
    simp at hlen
    simp
    omega

theorem SplitMetaNamespaceKey_err_eq (key : Str) (e : Err)
    (h : (SplitMetaNamespaceKey key).2.2 = some e) :
    SplitMetaNamespaceKey key = ([], [], some e) := by
  unfold SplitMetaNamespaceKey at h ⊢
  match hs : Split key '/' with
  | [] => exact absurd hs (Split_ne_nil _ _)
  | [a] => simp [hs] at h
  | [a, b] => simp [hs] at h
  | a :: b :: c :: r =>
    simp [hs] at h
    simp [h]

theorem SplitMetaNamespaceKey_pair (ns name : Str) (hns : '/' ∉ ns) (hname : '/' ∉ name) :
    SplitMetaNamespaceKey (ns ++ '/' :: name) = (ns, name, none) := by
  simp [SplitMetaNamespaceKey, Split_append_sep ns name '/' hns, Split_of_not_mem name '/' hname]

theorem SplitMetaNamespaceKey_single (name : Str) (hname : '/' ∉ name) :
    SplitMetaNamespaceKey name = ([], name, none) := by
  simp [SplitMetaNamespaceKey, Split_of_not_mem name '/' hname]

/-- The decoder on a key with a `~`: everything is decided by the segment before the
first `~` and by the first segment after it. -/
theorem GetResourceRealKeyWithFlag_sep (b f : Str) (h : '~' ∉ b) :
    GetResourceRealKeyWithFlag (b ++ '~' :: f) =
      match SplitMetaNamespaceKey b with
      | (_, _, some err) => ([], [], [], [], some err)
      | (ns, service, none) => (b, ns, service, f.takeWhile (fun c => c != '~'), none) := by
  have hne : b ++ '~' :: f ≠ [] := by simp
  have hlen : (Split f '~').length + 1 ≠ 1 := by
    have := Split_length f '~'
    omega
  have hflag : (Split f '~')[0]?.getD [] = f.takeWhile (fun c => c != '~') := by
    have := Split_getD_zero f '~'
    simpa [List.getD] using this
  simp only [GetResourceRealKeyWithFlag, hne, if_false, Split_append_sep b f '~' h]
  rcases hb : SplitMetaNamespaceKey b with ⟨ns, service, _ | err⟩
  · simp [hb, hlen, hflag]
  · simp [hb]

/-- The decoder on a non-empty key without `~`. -/
theorem GetResourceRealKeyWithFlag_no_sep (k : Str) (hne : k ≠ []) (h : '~' ∉ k) :
    GetResourceRealKeyWithFlag k =
      match SplitMetaNamespaceKey k with
      | (_, _, some err) => ([], [], [], [], some err)
      | (ns, service, none) => (k, ns, service, [], none) := by
  simp only [GetResourceRealKeyWithFlag, hne, if_false, Split_of_not_mem k '~' h]
  rcases hb : SplitMetaNamespaceKey k with ⟨ns, service, _ | err⟩
  · simp [hb]
  · simp [hb]

theorem takeWhile_append_dropWhile_sep (key : Str) (sep : Char) :
    sep ∉ key.takeWhile (fun c => c != sep) ∧
    (key.dropWhile (fun c => c != sep) = [] ∨
      ∃ f, key.dropWhile (fun c => c != sep) = sep :: f) := by
  constructor
  · intro hmem
    have hall := List.all_takeWhile (l := key) (p := fun c => c != sep)
    rw [List.all_eq_true] at hall
    have := hall sep hmem
    simp at this
  · cases hd : key.dropWhile (fun c => c != sep) with
    | nil => exact Or.inl rfl
    | cons c f =>
      right
      have := List.head_dropWhile_not (fun c => c != sep) key (by simp [hd])
      simp [hd] at this
      exact ⟨f, by rw [this]⟩

theorem keyFunc_of_Accessor (o : Obj) (m : ObjectMeta) (h : Accessor o = some m) :
    keyFunc o =
      if m.Namespace.length > 0 then (m.Namespace ++ "/".toList ++ m.Name, none)
      else (m.Name, none) := by
  cases o <;>
    simp_all [Accessor, keyFunc, DeletionHandlingMetaNamespaceKeyFunc, MetaNamespaceKeyFunc]

theorem takeWhile_of_not_mem (f : Str) (sep : Char) (h : sep ∉ f) :
    f.takeWhile (fun c => c != sep) = f := by
  induction f with
  | nil => rfl
  | cons c f ih =>
    have hc : c ≠ sep := fun e => h (by simp [e])
    have hf : sep ∉ f := fun e => h (by simp [e])
    simp [List.takeWhile_cons, hc, ih hf]

/-- The decoder on any non-empty key, in terms of the segment before the first `~`
and of the segment between the first and the second `~`. -/
theorem GetResourceRealKeyWithFlag_eq (key : Str) (hne : key ≠ []) :
    GetResourceRealKeyWithFlag key =
      match SplitMetaNamespaceKey (key.takeWhile (fun c => c != '~')) with
      | (_, _, some err) => ([], [], [], [], some err)
      | (ns, service, none) =>
        (key.takeWhile (fun c => c != '~'), ns, service,
          ((key.dropWhile (fun c => c != '~')).drop 1).takeWhile (fun c => c != '~'), none) := by
  have happ := List.takeWhile_append_dropWhile (fun c => c != '~') key
  rcases takeWhile_append_dropWhile_sep key '~' with ⟨hnot, hnil | ⟨f, hf⟩⟩
  · have hk : key.takeWhile (fun c => c != '~') = key := by
      rw [hnil, List.append_nil] at happ
      exact happ
    rw [hk] at hnot
    rw [hk, hnil, GetResourceRealKeyWithFlag_no_sep key hne hnot]
    rfl
  · rw [hf] at happ
    have h := GetResourceRealKeyWithFlag_sep (key.takeWhile (fun c => c != '~')) f hnot
    rw [happ] at h
    rw [h, hf]
    rfl

/-- A successful `SplitMetaNamespaceKey`: either the key has no `/`, the namespace is
empty and the name is the key, or the key is namespace, `/`, name, with no further
`/` in either. -/
theorem SplitMetaNamespaceKey_ok (key ns name : Str)
    (h : SplitMetaNamespaceKey key = (ns, name, none)) :
    ('/' ∉ key ∧ ns = [] ∧ name = key) ∨
    (key = ns ++ '/' :: name ∧ '/' ∉ ns ∧ '/' ∉ name) := by
  have happ := List.takeWhile_append_dropWhile (fun c => c != '/') key
  rcases takeWhile_append_dropWhile_sep key '/' with ⟨hnot, hnil | ⟨f, hf⟩⟩
  · left
    rw [hnil, List.append_nil] at happ
    rw [happ] at hnot
    rw [SplitMetaNamespaceKey_single key hnot] at h
    simp only [Prod.mk.injEq, and_true] at h
    exact ⟨hnot, h.1.symm, h.2.symm⟩
  · right
    rw [hf] at happ
    generalize key.takeWhile (fun c => c != '/') = tw at hnot happ
    subst happ
    unfold SplitMetaNamespaceKey at h
    rw [Split_append_sep tw f '/' hnot] at h
    have hlen := Split_length f '/'
    match hs : Split f '/' with
    | [] => exact absurd hs (Split_ne_nil _ _)
    | [x] =>
      rw [hs] at h hlen
      simp only [Prod.mk.injEq, and_true] at h
      have hcount : f.count '/' = 0 := by simpa using hlen
      have hf2 : '/' ∉ f := List.count_eq_zero.1 hcount
      rw [Split_of_not_mem f '/' hf2] at hs
      simp only [List.cons.injEq, and_true] at hs
      obtain ⟨h1, h2⟩ := h
      subst h1 h2 hs
      exact ⟨rfl, hnot, hf2⟩
    | x :: y :: r =>
      rw [hs] at h
      simp at h

theorem SplitMetaNamespaceKey_of_count_le (key : Str) (h : key.count '/' ≤ 1) :
    SplitMetaNamespaceKey key
      = ((SplitMetaNamespaceKey key).1, (SplitMetaNamespaceKey key).2.1, none) := by
  have herr : (SplitMetaNamespaceKey key).2.2 = none := by
    by_contra hne
    have := (SplitMetaNamespaceKey_err_iff key).1 hne
    omega
  rcases hs : SplitMetaNamespaceKey key with ⟨a, b, e⟩
  rw [hs] at herr
  simp only at herr
  simp [herr]

theorem takeWhile_append_sep (f g : Str) (sep : Char) (h : sep ∉ f) :
    (f ++ sep :: g).takeWhile (fun c => c != sep) = f := by
  induction f with
  | nil => simp [List.takeWhile_cons]
  | cons c f ih =>
    have hc : c ≠ sep := fun e => h (by simp [e])
    have hf : sep ∉ f := fun e => h (by simp [e])
    simp [List.takeWhile_cons, hc, ih hf]

/-! ## Compose and decompose -/

/-- Claim C1, as stated, fails: the flag `a~b` is composed into the key
`default/web~a~b`, which is decoded with flag `a`. -/
theorem C1_flag_with_tilde_not_recovered :
    GenQueueKeyWithFlag (.Service ⟨"default".toList, "web".toList, []⟩) "a~b".toList
      = ("default/web~a~b".toList, none) ∧
    GetResourceRealKeyWithFlag "default/web~a~b".toList
      = ("default/web".toList, "default".toList, "web".toList, "a".toList, none) ∧
    (GetResourceRealKeyWithFlag "default/web~a~b".toList).2.2.2.1 ≠ "a~b".toList := by
  decide

/-- Claim C1, amended: for a namespace and a name that are non-empty and contain
neither `~` nor `/`, and for a flag that contains no `~`, a key composed by
`GenQueueKeyWithFlag` is decoded by `GetResourceRealKeyWithFlag` without error into
the base key `namespace/name`, the namespace, the name and the flag. -/
theorem C1_round_trip (o : Obj) (m : ObjectMeta) (flag q : Str)
    (ho : Accessor o = some m)
    (hns : m.Namespace ≠ [] ∧ '~' ∉ m.Namespace ∧ '/' ∉ m.Namespace)
    (hname : m.Name ≠ [] ∧ '~' ∉ m.Name ∧ '/' ∉ m.Name)
    (hflag : '~' ∉ flag)
    (hq : GenQueueKeyWithFlag o flag = (q, none)) :
    GetResourceRealKeyWithFlag q
      = (m.Namespace ++ "/".toList ++ m.Name, m.Namespace, m.Name, flag, none) := by
  have hlen : m.Namespace.length > 0 := List.length_pos.2 hns.1
  have hkey := keyFunc_of_Accessor o m ho
  rw [if_pos hlen] at hkey
  have hq2 : q = (m.Namespace ++ '/' :: m.Name) ++ '~' :: flag := by
    simp [GenQueueKeyWithFlag, hkey] at hq
    rw [← hq]
    simp
  have hb : '~' ∉ m.Namespace ++ '/' :: m.Name := by
    simp [hns.2.1, hname.2.1]
  rw [hq2, GetResourceRealKeyWithFlag_sep _ _ hb,
    SplitMetaNamespaceKey_pair _ _ hns.2.2 hname.2.2, takeWhile_of_not_mem flag '~' hflag]
  simp

theorem C1_round_trip_witness :
    GetResourceRealKeyWithFlag "default/web~1".toList
      = ("default".toList ++ "/".toList ++ "web".toList, "default".toList, "web".toList,
          "1".toList, none) :=
  C1_round_trip (.Service ⟨"default".toList, "web".toList, []⟩)
    ⟨"default".toList, "web".toList, []⟩ "1".toList "default/web~1".toList
    (by decide) (by decide) (by decide) (by decide) (by decide)

/-- Claim C2, as stated, fails: in `a/b~x~y` the part after the first `~` is `x~y`,
and the returned flag is `x`. -/
theorem C2_flag_is_not_whole_remainder :
    '~' ∉ "a/b".toList ∧
    SplitMetaNamespaceKey "a/b".toList = ("a".toList, "b".toList, none) ∧
    GetResourceRealKeyWithFlag ("a/b".toList ++ '~' :: "x~y".toList)
      = ("a/b".toList, "a".toList, "b".toList, "x".toList, none) ∧
    (GetResourceRealKeyWithFlag ("a/b".toList ++ '~' :: "x~y".toList)).2.2.2.1
      ≠ "x~y".toList := by
  decide

/-- Claim C2, amended: on a key `b~f` where `b` has no `~` and parses as a
namespace/name key, the decoder succeeds, the base key is `b`, and the flag is the
part of `f` before its first `~`: all of `f` when `f` has no `~`. -/
theorem C2_split_at_first_tilde (b f ns name : Str) (hb : '~' ∉ b)
    (hparse : SplitMetaNamespaceKey b = (ns, name, none)) :
    GetResourceRealKeyWithFlag (b ++ '~' :: f)
      = (b, ns, name, f.takeWhile (fun c => c != '~'), none) ∧
    ('~' ∉ f → GetResourceRealKeyWithFlag (b ++ '~' :: f) = (b, ns, name, f, none)) := by
  have h := GetResourceRealKeyWithFlag_sep b f hb
  rw [hparse] at h
  refine ⟨h, fun hf => ?_⟩
  rw [h, takeWhile_of_not_mem f '~' hf]

theorem C2_split_at_first_tilde_witness :
    GetResourceRealKeyWithFlag ("ns1/svcA".toList ++ '~' :: "1".toList)
      = ("ns1/svcA".toList, "ns1".toList, "svcA".toList, "1".toList, none) :=
  (C2_split_at_first_tilde "ns1/svcA".toList "1".toList "ns1".toList "svcA".toList
    (by decide) (by decide)).2 (by decide)

/-! ## Resync suffix -/

/-- Claim C3: stripping after adding the resync suffix gives back the key, for every
key; and on every key that ends with `~resync` the strip function returns a result
which, followed by `~resync`, is the key. -/
theorem C3_resync_round_trip :
    (∀ k : Str, GetOriginKeyWithResyncQueueKey (GenResourceResyncQueueKey k) = some k) ∧
    (∀ q : Str, "~resync".toList <:+ q →
      (GetOriginKeyWithResyncQueueKey q).map (fun r => r ++ "~resync".toList) = some q) := by
  have key : ∀ k : Str,
      GetOriginKeyWithResyncQueueKey (k ++ "~resync".toList) = some k := by
    intro k
    simp [GetOriginKeyWithResyncQueueKey]
  constructor
  · intro k
    have := key k
    simpa [GenResourceResyncQueueKey] using this
  · rintro q ⟨r, rfl⟩
    rw [key r]
    rfl

theorem C3_resync_round_trip_witness :
    GetOriginKeyWithResyncQueueKey (GenResourceResyncQueueKey "ns1/svcA".toList)
      = some "ns1/svcA".toList ∧
    (GetOriginKeyWithResyncQueueKey "ns1/svcA~resync".toList).map
      (fun r => r ++ "~resync".toList) = some "ns1/svcA~resync".toList :=
  ⟨C3_resync_round_trip.1 _, C3_resync_round_trip.2 _ (by decide)⟩

/-! ## Kind prefixes -/

/-- Claim C4: the three kind prefixes are pairwise distinct, none is a prefix of
another, and a key tagged with one prefix is left unchanged and answered `false` by
the predicate of another kind. -/
theorem C4_prefix_exclusivity :
    (NamespacePrefix ≠ ServicePrefix ∧ NamespacePrefix ≠ ConfigMapPrefix ∧
      ServicePrefix ≠ ConfigMapPrefix) ∧
    (¬ NamespacePrefix <+: ServicePrefix ∧ ¬ NamespacePrefix <+: ConfigMapPrefix ∧
      ¬ ServicePrefix <+: NamespacePrefix ∧ ¬ ServicePrefix <+: ConfigMapPrefix ∧
      ¬ ConfigMapPrefix <+: NamespacePrefix ∧ ¬ ConfigMapPrefix <+: ServicePrefix) ∧
    (∀ k : Str,
      IsServiceKey (ConfigMapPrefix ++ k) = (ConfigMapPrefix ++ k, false) ∧
      IsServiceKey (NamespacePrefix ++ k) = (NamespacePrefix ++ k, false) ∧
      IsConfigMapKey (ServicePrefix ++ k) = (ServicePrefix ++ k, false) ∧
      IsConfigMapKey (NamespacePrefix ++ k) = (NamespacePrefix ++ k, false)) := by
  refine ⟨⟨by decide, by decide, by decide⟩,
    ⟨by decide, by decide, by decide, by decide, by decide, by decide⟩, ?_⟩
  intro k
  refine ⟨?_, ?_, ?_, ?_⟩ <;>
    simp [IsServiceKey, IsConfigMapKey, HasPrefix, ServicePrefix, ConfigMapPrefix,
      NamespacePrefix]

/-- Claim C5: `IsServiceKey key` is `(s, true)` exactly when `key` is `Service~`
followed by `s`, and is `(key, false)` when `key` does not start with `Service~`;
likewise `IsConfigMapKey` with `ConfigMap~`; in particular both strip the prefix of
a key that they built from it. -/
theorem C5_kind_predicates_strip_prefix :
    (∀ key s : Str, IsServiceKey key = (s, true) ↔ key = ServicePrefix ++ s) ∧
    (∀ key : Str, ¬ ServicePrefix <+: key → IsServiceKey key = (key, false)) ∧
    (∀ key s : Str, IsConfigMapKey key = (s, true) ↔ key = ConfigMapPrefix ++ s) ∧
    (∀ key : Str, ¬ ConfigMapPrefix <+: key → IsConfigMapKey key = (key, false)) ∧
    (∀ k : Str, IsConfigMapKey (ConfigMapPrefix ++ k) = (k, true)) ∧
    (∀ k : Str, IsServiceKey (ServicePrefix ++ k) = (k, true)) := by
  refine ⟨?_, IsServiceKey_unmatched, ?_, IsConfigMapKey_unmatched,
    IsConfigMapKey_append, IsServiceKey_append⟩
  · intro key s
    constructor
    · intro h
      by_cases hp : ServicePrefix <+: key
      · obtain ⟨t, rfl⟩ := hp
        rw [IsServiceKey_append] at h
        simp only [Prod.mk.injEq, and_true] at h
        rw [h]
      · rw [IsServiceKey_unmatched key hp] at h
        simp at h
    · rintro rfl
      exact IsServiceKey_append s
  · intro key s
    constructor
    · intro h
      by_cases hp : ConfigMapPrefix <+: key
      · obtain ⟨t, rfl⟩ := hp
        rw [IsConfigMapKey_append] at h
        simp only [Prod.mk.injEq, and_true] at h
        rw [h]
      · rw [IsConfigMapKey_unmatched key hp] at h
        simp at h
    · rintro rfl
      exact IsConfigMapKey_append s

theorem C5_kind_predicates_strip_prefix_witness :
    ¬ ServicePrefix <+: "ConfigMap~kube-system/cm1".toList ∧
    IsServiceKey "ConfigMap~kube-system/cm1".toList
      = ("ConfigMap~kube-system/cm1".toList, false) :=
  ⟨by decide, C5_kind_predicates_strip_prefix.2.1 _ (by decide)⟩

/-! ## Kind tagging -/

/-- Claim C6: on a `*v1.Namespace`, `*v1.ConfigMap` or `*v1.Service` for which
`keyFunc` gives the key `k` without error, `GenResourceMapQueueKey` returns
`Namespace~k`, `ConfigMap~k` or `Service~k` without error; and when `keyFunc` fails,
`GenResourceMapQueueKey` returns the empty key and the error of `keyFunc`. -/
theorem C6_kind_tagging :
    (∀ (m : ObjectMeta) (k : Str), keyFunc (.Namespace m) = (k, none) →
      GenResourceMapQueueKey (.Namespace m) = (NamespacePrefix ++ k, none)) ∧
    (∀ (m : ObjectMeta) (k : Str), keyFunc (.ConfigMap m) = (k, none) →
      GenResourceMapQueueKey (.ConfigMap m) = (ConfigMapPrefix ++ k, none)) ∧
    (∀ (m : ObjectMeta) (k : Str), keyFunc (.Service m) = (k, none) →
      GenResourceMapQueueKey (.Service m) = (ServicePrefix ++ k, none)) ∧
    (∀ (val : Obj) (k : Str) (e : Err), keyFunc val = (k, some e) →
      GenResourceMapQueueKey val = ([], some e)) := by
  refine ⟨?_, ?_, ?_, ?_⟩
  · intro m k h
    simp [GenResourceMapQueueKey, h]
  · intro m k h
    simp [GenResourceMapQueueKey, h]
  · intro m k h
    simp [GenResourceMapQueueKey, h]
  · intro val k e h
    simp [GenResourceMapQueueKey, h]

theorem C6_kind_tagging_witness :
    GenResourceMapQueueKey (.Namespace ⟨[], "dev".toList, []⟩)
      = (NamespacePrefix ++ "dev".toList, none) ∧
    GenResourceMapQueueKey (.ConfigMap ⟨"kube-system".toList, "cm1".toList, []⟩)
      = (ConfigMapPrefix ++ "kube-system/cm1".toList, none) ∧
    GenResourceMapQueueKey (.Service ⟨"default".toList, "web".toList, []⟩)
      = (ServicePrefix ++ "default/web".toList, none) ∧
    GenResourceMapQueueKey .NoMeta = ([], some .objectHasNoMeta) :=
  ⟨C6_kind_tagging.1 _ _ (by decide), C6_kind_tagging.2.1 _ _ (by decide),
    C6_kind_tagging.2.2.1 _ _ (by decide), C6_kind_tagging.2.2.2 .NoMeta [] _ (by decide)⟩

/-- Claim C7, as stated, fails: a value without object metadata is not one of the
three kinds, and `GenResourceMapQueueKey` returns the error of `keyFunc` for it, not
the error that it creates itself. -/
theorem C7_no_meta_gets_keyFunc_error :
    (∀ m, Obj.NoMeta ≠ .Namespace m) ∧ (∀ m, Obj.NoMeta ≠ .ConfigMap m) ∧
    (∀ m, Obj.NoMeta ≠ .Service m) ∧
    GenResourceMapQueueKey .NoMeta = ([], some .objectHasNoMeta) ∧
    GenResourceMapQueueKey .NoMeta ≠ ([], some .notInvalidKubernetesResourceType) := by
  refine ⟨fun m => by simp, fun m => by simp, fun m => by simp, by decide, by decide⟩

/-- Claim C7, amended: for a value whose type is none of `*v1.Namespace`,
`*v1.ConfigMap`, `*v1.Service`, `GenResourceMapQueueKey` returns the empty key with
an error: its own unsupported-kind error when `keyFunc` succeeds on the value, and
the error of `keyFunc` when `keyFunc` fails. -/
theorem C7_unsupported_kind (val : Obj)
    (hn : ∀ m, val ≠ .Namespace m) (hc : ∀ m, val ≠ .ConfigMap m)
    (hs : ∀ m, val ≠ .Service m) :
    (∀ k, keyFunc val = (k, none) →
      GenResourceMapQueueKey val = ([], some .notInvalidKubernetesResourceType)) ∧
    (∀ k e, keyFunc val = (k, some e) → GenResourceMapQueueKey val = ([], some e)) := by
  constructor
  · intro k h
    cases val with
    | Namespace m => exact absurd rfl (hn m)
    | ConfigMap m => exact absurd rfl (hc m)
    | Service m => exact absurd rfl (hs m)
    | DeletedFinalStateUnknown key o => simp [GenResourceMapQueueKey, h]
    | ExplicitKey key => simp [GenResourceMapQueueKey, h]
    | OtherObject m => simp [GenResourceMapQueueKey, h]
    | NoMeta => simp [GenResourceMapQueueKey, h]
  · intro k e h
    simp [GenResourceMapQueueKey, h]

theorem C7_unsupported_kind_witness :
    GenResourceMapQueueKey (.OtherObject ⟨"default".toList, "pod-0".toList, []⟩)
      = ([], some .notInvalidKubernetesResourceType) :=
  (C7_unsupported_kind (.OtherObject ⟨"default".toList, "pod-0".toList, []⟩)
    (fun m => by simp) (fun m => by simp) (fun m => by simp)).1 "default/pod-0".toList
    (by decide)

/-! ## Decoder errors -/

/-- Claim C8: on a non-empty key the decoder returns an error exactly when
`SplitMetaNamespaceKey` fails on the segment before the first `~`, which is exactly
when that segment has two or more `/`; whenever it returns an error the four
returned strings are empty; and the part after the first `~` has no influence on
the returned error. -/
theorem C8_error_iff_malformed_base :
    (∀ key : Str, key ≠ [] →
      ((GetResourceRealKeyWithFlag key).2.2.2.2 ≠ none ↔
        (SplitMetaNamespaceKey (key.takeWhile (fun c => c != '~'))).2.2 ≠ none) ∧
      ((SplitMetaNamespaceKey (key.takeWhile (fun c => c != '~'))).2.2 ≠ none ↔
        2 ≤ (key.takeWhile (fun c => c != '~')).count '/') ∧
      ((GetResourceRealKeyWithFlag key).2.2.2.2 ≠ none →
        (GetResourceRealKeyWithFlag key).1 = [] ∧ (GetResourceRealKeyWithFlag key).2.1 = [] ∧
        (GetResourceRealKeyWithFlag key).2.2.1 = [] ∧
        (GetResourceRealKeyWithFlag key).2.2.2.1 = [])) ∧
    (∀ b f g : Str, '~' ∉ b →
      (GetResourceRealKeyWithFlag (b ++ '~' :: f)).2.2.2.2
        = (GetResourceRealKeyWithFlag (b ++ '~' :: g)).2.2.2.2) := by
  constructor
  · intro key hne
    have h := GetResourceRealKeyWithFlag_eq key hne
    refine ⟨?_, SplitMetaNamespaceKey_err_iff _, ?_⟩
    · rcases hs : SplitMetaNamespaceKey (key.takeWhile (fun c => c != '~'))
        with ⟨ns, service, _ | err⟩
      · rw [hs] at h
        simp [h]
      · rw [hs] at h
        simp [h]
    · rcases hs : SplitMetaNamespaceKey (key.takeWhile (fun c => c != '~'))
        with ⟨ns, service, _ | err⟩
      · rw [hs] at h
        simp [h]
      · rw [hs] at h
        simp [h]
  · intro b f g hb
    rw [GetResourceRealKeyWithFlag_sep b f hb, GetResourceRealKeyWithFlag_sep b g hb]
    rcases hs : SplitMetaNamespaceKey b with ⟨ns, service, _ | err⟩ <;> simp

theorem C8_error_iff_malformed_base_witness :
    (GetResourceRealKeyWithFlag "a/b/c~x".toList).2.2.2.2 ≠ none ∧
    2 ≤ ("a/b/c~x".toList.takeWhile (fun c => c != '~')).count '/' ∧
    (GetResourceRealKeyWithFlag "a/b/c~x".toList).1 = [] ∧
    (GetResourceRealKeyWithFlag ("a/b".toList ++ '~' :: "x".toList)).2.2.2.2
      = (GetResourceRealKeyWithFlag ("a/b".toList ++ '~' :: "y/z/w~~".toList)).2.2.2.2 :=
  ⟨by decide,
    (C8_error_iff_malformed_base.1 "a/b/c~x".toList (by decide)).2.1.1
      (((C8_error_iff_malformed_base.1 "a/b/c~x".toList (by decide)).1).1 (by decide)),
    ((C8_error_iff_malformed_base.1 "a/b/c~x".toList (by decide)).2.2 (by decide)).1,
    C8_error_iff_malformed_base.2 "a/b".toList "x".toList "y/z/w~~".toList (by decide)⟩

/-! ## Composer and identity key -/

/-- Claim C9: when `keyFunc` gives the key `k` without error, `GenQueueKeyWithFlag`
returns `k`, then `~`, then the flag, without error, whatever the flag is; when
`keyFunc` fails it returns the empty key and that error; and
`GenConfigMapQueueKeyWithFlag` does the same on a ConfigMap. -/
theorem C9_composer_contract :
    (∀ (svc : Obj) (flag k : Str), keyFunc svc = (k, none) →
      GenQueueKeyWithFlag svc flag = (k ++ "~".toList ++ flag, none)) ∧
    (∀ (svc : Obj) (flag k : Str) (e : Err), keyFunc svc = (k, some e) →
      GenQueueKeyWithFlag svc flag = ([], some e)) ∧
    (∀ (cm : ObjectMeta) (flag k : Str), keyFunc (.ConfigMap cm) = (k, none) →
      GenConfigMapQueueKeyWithFlag cm flag = (k ++ "~".toList ++ flag, none)) ∧
    (∀ (cm : ObjectMeta) (flag k : Str) (e : Err), keyFunc (.ConfigMap cm) = (k, some e) →
      GenConfigMapQueueKeyWithFlag cm flag = ([], some e)) ∧
    (∀ (cm : ObjectMeta) (flag : Str),
      GenConfigMapQueueKeyWithFlag cm flag = GenQueueKeyWithFlag (.ConfigMap cm) flag) := by
  refine ⟨?_, ?_, ?_, ?_, ?_⟩
  · intro svc flag k h
    simp [GenQueueKeyWithFlag, h]
  · intro svc flag k e h
    simp [GenQueueKeyWithFlag, h]
  · intro cm flag k h
    simp [GenConfigMapQueueKeyWithFlag, h]
  · intro cm flag k e h
    simp [GenConfigMapQueueKeyWithFlag, h]
  · intro cm flag
    rfl

theorem C9_composer_contract_witness :
    GenQueueKeyWithFlag (.Service ⟨"default".toList, "web".toList, []⟩) "1".toList
      = ("default/web".toList ++ "~".toList ++ "1".toList, none) ∧
    GenQueueKeyWithFlag .NoMeta "1".toList = ([], some .objectHasNoMeta) ∧
    GenConfigMapQueueKeyWithFlag ⟨"kube-system".toList, "cm1".toList, []⟩ "~/~".toList
      = ("kube-system/cm1".toList ++ "~".toList ++ "~/~".toList, none) :=
  ⟨C9_composer_contract.1 _ _ _ (by decide),
    C9_composer_contract.2.1 .NoMeta _ [] _ (by decide),
    C9_composer_contract.2.2.1 _ _ _ (by decide)⟩

/-- Claim C10, as stated, fails: a Namespace object is cluster-scoped, its namespace
is empty, and its key is its name alone, not `/` followed by its name. -/
theorem C10_namespace_object_key_is_name :
    Accessor (.Namespace ⟨[], "default".toList, []⟩) = some ⟨[], "default".toList, []⟩ ∧
    GenObjectQueueKey (.Namespace ⟨[], "default".toList, []⟩) = ("default".toList, none) ∧
    GenObjectQueueKey (.Namespace ⟨[], "default".toList, []⟩)
      ≠ (([] : Str) ++ "/".toList ++ "default".toList, none) := by
  decide

/-- Claim C10, amended: for an object with metadata, of any kind,
`GenObjectQueueKey` returns without error the key `namespace/name` when the
namespace is not empty, and the name alone when the namespace is empty. -/
theorem C10_identity_key_form (o : Obj) (m : ObjectMeta) (ho : Accessor o = some m) :
    (m.Namespace ≠ [] → GenObjectQueueKey o = (m.Namespace ++ "/".toList ++ m.Name, none)) ∧
    (m.Namespace = [] → GenObjectQueueKey o = (m.Name, none)) := by
  have hkey := keyFunc_of_Accessor o m ho
  constructor
  · intro hne
    have hlen : m.Namespace.length > 0 := List.length_pos.2 hne
    rw [if_pos hlen] at hkey
    simp [GenObjectQueueKey, hkey]
  · intro he
    have hlen : ¬ m.Namespace.length > 0 := by simp [he]
    rw [if_neg hlen] at hkey
    simp [GenObjectQueueKey, hkey]

theorem C10_identity_key_form_witness :
    GenObjectQueueKey (.Service ⟨"default".toList, "web".toList, []⟩)
      = ("default".toList ++ "/".toList ++ "web".toList, none) ∧
    GenObjectQueueKey (.Namespace ⟨[], "dev".toList, []⟩) = ("dev".toList, none) :=
  ⟨(C10_identity_key_form (.Service ⟨"default".toList, "web".toList, []⟩)
      ⟨"default".toList, "web".toList, []⟩ (by decide)).1 (by decide),
    (C10_identity_key_form (.Namespace ⟨[], "dev".toList, []⟩)
      ⟨[], "dev".toList, []⟩ (by decide)).2 (by decide)⟩

/-! ## Decoding keys with and without a flag -/

/-- Claim C11, as stated, fails: the key `a/b/c` has no `~`, and the decoder returns
an error for it. -/
theorem C11_no_flag_key_can_fail :
    '~' ∉ "a/b/c".toList ∧
    GetResourceRealKeyWithFlag "a/b/c".toList
      = ([], [], [], [], some (.unexpectedKeyFormat "a/b/c".toList)) ∧
    (GetResourceRealKeyWithFlag "a/b/c".toList).2.2.2.2 ≠ none := by
  decide

/-- Claim C11, amended: for every key without `~` the decoder returns an empty flag,
and it returns no error exactly when the key has at most one `/`. -/
theorem C11_no_flag_key (key : Str) (h : '~' ∉ key) :
    (GetResourceRealKeyWithFlag key).2.2.2.1 = [] ∧
    ((GetResourceRealKeyWithFlag key).2.2.2.2 = none ↔ key.count '/' ≤ 1) := by
  by_cases hne : key = []
  · subst hne
    simp [GetResourceRealKeyWithFlag]
  · have hr := GetResourceRealKeyWithFlag_no_sep key hne h
    have herr := SplitMetaNamespaceKey_err_iff key
    rcases hs : SplitMetaNamespaceKey key with ⟨ns, service, _ | err⟩
    · rw [hs] at hr herr
      simp only [ne_eq, not_true_eq_false, false_iff, not_le] at herr
      rw [hr]
      exact ⟨rfl, by simp; omega⟩
    · rw [hs] at hr herr
      simp only [ne_eq, reduceCtorEq, not_false_eq_true, true_iff] at herr
      rw [hr]
      exact ⟨rfl, by simp; omega⟩

theorem C11_no_flag_key_witness :
    (GetResourceRealKeyWithFlag "ns1/svcA".toList).2.2.2.1 = [] ∧
    ((GetResourceRealKeyWithFlag "ns1/svcA".toList).2.2.2.2 = none ↔
      "ns1/svcA".toList.count '/' ≤ 1) :=
  C11_no_flag_key "ns1/svcA".toList (by decide)

/-- Claim C12: the decoder on the empty key returns four empty strings and no
error. -/
theorem C12_empty_key_sentinel :
    GetResourceRealKeyWithFlag [] = ([], [], [], [], none) ∧
    GetResourceRealKeyWithFlag "".toList = ([], [], [], [], none) := by
  constructor <;> rfl

/-- Claim C13: for a base key `b` without `~` and with at most one `/`, and a flag
`f` without `~`, the decoder on `b~f` returns no error, the base key `b` and the flag
`f`; when `b` has a `/` the returned namespace and name are its two sides, when it
has none the namespace is empty and the name is `b`.  The same key is what
`IsServiceKey` returns from `Service~b~f`, and `GenResourceResyncQueueKey b` is the
key `b~resync`. -/
theorem C13_decode_single_flag_key (b f : Str) (hb : '~' ∉ b) (hslash : b.count '/' ≤ 1)
    (hf : '~' ∉ f) :
    (GetResourceRealKeyWithFlag (b ++ '~' :: f)).1 = b ∧
    (GetResourceRealKeyWithFlag (b ++ '~' :: f)).2.2.2.1 = f ∧
    (GetResourceRealKeyWithFlag (b ++ '~' :: f)).2.2.2.2 = none ∧
    ('/' ∈ b →
      b = (GetResourceRealKeyWithFlag (b ++ '~' :: f)).2.1 ++
            '/' :: (GetResourceRealKeyWithFlag (b ++ '~' :: f)).2.2.1 ∧
      '/' ∉ (GetResourceRealKeyWithFlag (b ++ '~' :: f)).2.1 ∧
      '/' ∉ (GetResourceRealKeyWithFlag (b ++ '~' :: f)).2.2.1) ∧
    ('/' ∉ b →
      (GetResourceRealKeyWithFlag (b ++ '~' :: f)).2.1 = [] ∧
      (GetResourceRealKeyWithFlag (b ++ '~' :: f)).2.2.1 = b) ∧
    IsServiceKey (ServicePrefix ++ (b ++ '~' :: f)) = (b ++ '~' :: f, true) ∧
    GenResourceResyncQueueKey b = b ++ '~' :: "resync".toList := by
  have hs := SplitMetaNamespaceKey_of_count_le b hslash
  have hr := GetResourceRealKeyWithFlag_sep b f hb
  rw [hs, takeWhile_of_not_mem f '~' hf] at hr
  simp only at hr
  have hok := SplitMetaNamespaceKey_ok b _ _ hs
  rw [hr]
  refine ⟨rfl, rfl, rfl, ?_, ?_, IsServiceKey_append _, ?_⟩
  · intro hmem
    rcases hok with ⟨hno, _, _⟩ | h2
    · exact absurd hmem hno
    · exact h2
  · intro hno
    rcases hok with ⟨_, h1, h2⟩ | ⟨h2, _, _⟩
    · exact ⟨h1, h2⟩
    · exact absurd (by rw [h2]; simp) hno
  · simp [GenResourceResyncQueueKey]

theorem C13_decode_single_flag_key_witness :
    GetResourceRealKeyWithFlag ("ns1/svcA".toList ++ '~' :: "1".toList)
      = ("ns1/svcA".toList, "ns1".toList, "svcA".toList, "1".toList, none) ∧
    (GetResourceRealKeyWithFlag ("ns1/svcA".toList ++ '~' :: "1".toList)).2.2.2.1
      = "1".toList ∧
    "ns1/svcA".toList
      = (GetResourceRealKeyWithFlag ("ns1/svcA".toList ++ '~' :: "1".toList)).2.1 ++
          '/' :: (GetResourceRealKeyWithFlag ("ns1/svcA".toList ++ '~' :: "1".toList)).2.2.1 :=
  ⟨by decide,
    (C13_decode_single_flag_key "ns1/svcA".toList "1".toList
      (by decide) (by decide) (by decide)).2.1,
    ((C13_decode_single_flag_key "ns1/svcA".toList "1".toList
      (by decide) (by decide) (by decide)).2.2.2.1 (by decide)).1⟩

/-- Claim C14: `GenResourceResyncQueueKey k` is `k` followed by `~resync`, for every
`k`; applied twice it gives `k` followed by `~resync~resync`, which is not what one
application gives. -/
theorem C14_resync_append_not_idempotent (k : Str) :
    GenResourceResyncQueueKey k = k ++ "~resync".toList ∧
    GenResourceResyncQueueKey (GenResourceResyncQueueKey k) = k ++ "~resync~resync".toList ∧
    GenResourceResyncQueueKey (GenResourceResyncQueueKey k) ≠ GenResourceResyncQueueKey k := by
  refine ⟨by simp [GenResourceResyncQueueKey], by simp [GenResourceResyncQueueKey], ?_⟩
  intro h
  have hlen := congrArg List.length h
  simp [GenResourceResyncQueueKey] at hlen

/-- Claim C15: on every key for which the decoder returns no error, a returned base
key that has a `/` is the returned namespace, `/`, the returned name, the namespace
having no `/` (so it is the part before the first `/`); and for a returned base key
without `/` the namespace is empty and the name is the base key. -/
theorem C15_namespace_name_split (key : Str)
    (hok : (GetResourceRealKeyWithFlag key).2.2.2.2 = none) :
    ('/' ∈ (GetResourceRealKeyWithFlag key).1 →
      (GetResourceRealKeyWithFlag key).1
        = (GetResourceRealKeyWithFlag key).2.1 ++ '/' :: (GetResourceRealKeyWithFlag key).2.2.1 ∧
      '/' ∉ (GetResourceRealKeyWithFlag key).2.1) ∧
    ('/' ∉ (GetResourceRealKeyWithFlag key).1 →
      (GetResourceRealKeyWithFlag key).2.1 = [] ∧
      (GetResourceRealKeyWithFlag key).2.2.1 = (GetResourceRealKeyWithFlag key).1) := by
  by_cases hne : key = []
  · subst hne
    simp [GetResourceRealKeyWithFlag]
  · have hr := GetResourceRealKeyWithFlag_eq key hne
    rcases hs : SplitMetaNamespaceKey (key.takeWhile (fun c => c != '~'))
      with ⟨ns, service, _ | err⟩
    · rw [hs] at hr
      simp only at hr
      have hsplit := SplitMetaNamespaceKey_ok _ _ _ hs
      rw [hr]
      simp only
      constructor
      · intro hmem
        rcases hsplit with ⟨hno, _, _⟩ | ⟨h1, h2, _⟩
        · exact absurd hmem hno
        · exact ⟨h1, h2⟩
      · intro hno
        rcases hsplit with ⟨_, h1, h2⟩ | ⟨h1, _, _⟩
        · exact ⟨h1, h2⟩
        · exact absurd (by rw [h1]; simp) hno
    · rw [hs] at hr
      rw [hr] at hok
      simp at hok

theorem C15_namespace_name_split_witness :
    (GetResourceRealKeyWithFlag "ns1/svcA~1".toList).1
      = (GetResourceRealKeyWithFlag "ns1/svcA~1".toList).2.1 ++
          '/' :: (GetResourceRealKeyWithFlag "ns1/svcA~1".toList).2.2.1 ∧
    '/' ∉ (GetResourceRealKeyWithFlag "ns1/svcA~1".toList).2.1 ∧
    (GetResourceRealKeyWithFlag "svcA~1".toList).2.1 = [] ∧
    (GetResourceRealKeyWithFlag "svcA~1".toList).2.2.1
      = (GetResourceRealKeyWithFlag "svcA~1".toList).1 :=
  ⟨((C15_namespace_name_split "ns1/svcA~1".toList (by decide)).1 (by decide)).1,
    ((C15_namespace_name_split "ns1/svcA~1".toList (by decide)).1 (by decide)).2,
    ((C15_namespace_name_split "svcA~1".toList (by decide)).2 (by decide)).1,
    ((C15_namespace_name_split "svcA~1".toList (by decide)).2 (by decide)).2⟩

/-! ## Unchecked suffix strip -/

/-- Claim C16: `GetOriginKeyWithResyncQueueKey` returns a result (does not panic)
exactly on keys of at least 7 bytes; on such a key the result is the key without its
last 7 bytes, whatever these bytes are; on a shorter key it panics. -/
theorem C16_strip_without_suffix_check :
    (∀ key : Str, (GetOriginKeyWithResyncQueueKey key).isSome = true ↔ 7 ≤ key.length) ∧
    (∀ key : Str, 7 ≤ key.length →
      GetOriginKeyWithResyncQueueKey key = some (key.take (key.length - 7))) ∧
    (∀ r t : Str, t.length = 7 → GetOriginKeyWithResyncQueueKey (r ++ t) = some r) ∧
    (∀ key : Str, key.length < 7 → GetOriginKeyWithResyncQueueKey key = none) := by
  have h7 : "~resync".toList.length = 7 := by decide
  refine ⟨?_, ?_, ?_, ?_⟩
  · intro key
    unfold GetOriginKeyWithResyncQueueKey
    rw [h7]
    by_cases h : key.length < 7
    · simp [h]
    · simp [h]
      omega
  · intro key h
    unfold GetOriginKeyWithResyncQueueKey
    rw [h7]
    have : ¬ key.length < 7 := by omega
    simp [this]
  · intro r t ht
    unfold GetOriginKeyWithResyncQueueKey
    rw [h7]
    have : ¬ (r ++ t).length < 7 := by simp [ht]
    simp [this, ht]
  · intro key h
    unfold GetOriginKeyWithResyncQueueKey
    rw [h7]
    simp [h]

theorem C16_strip_without_suffix_check_witness :
    GetOriginKeyWithResyncQueueKey "ns1/svcA".toList = some "n".toList ∧
    GetOriginKeyWithResyncQueueKey ("n".toList ++ "s1/svcA".toList) = some "n".toList ∧
    GetOriginKeyWithResyncQueueKey "resync".toList = none :=
  ⟨C16_strip_without_suffix_check.2.1 "ns1/svcA".toList (by decide),
    C16_strip_without_suffix_check.2.2.1 "n".toList "s1/svcA".toList (by decide),
    C16_strip_without_suffix_check.2.2.2 "resync".toList (by decide)⟩

/-! ## Keys decoded without stripping the kind prefix -/

/-- Claim C17: for every `k` without `~`, the decoder applied to a kind prefix
followed by `k` returns no error, with the kind name as base key and as name, an
empty namespace, and `k` as flag. -/
theorem C17_kind_prefixed_key_misparsed (k : Str) (h : '~' ∉ k) :
    GetResourceRealKeyWithFlag (NamespacePrefix ++ k)
      = ("Namespace".toList, [], "Namespace".toList, k, none) ∧
    GetResourceRealKeyWithFlag (ServicePrefix ++ k)
      = ("Service".toList, [], "Service".toList, k, none) ∧
    GetResourceRealKeyWithFlag (ConfigMapPrefix ++ k)
      = ("ConfigMap".toList, [], "ConfigMap".toList, k, none) := by
  have hn : NamespacePrefix ++ k = "Namespace".toList ++ '~' :: k := by
    simp [NamespacePrefix]
  have hs : ServicePrefix ++ k = "Service".toList ++ '~' :: k := by
    simp [ServicePrefix]
  have hc : ConfigMapPrefix ++ k = "ConfigMap".toList ++ '~' :: k := by
    simp [ConfigMapPrefix]
  have hk := takeWhile_of_not_mem k '~' h
  refine ⟨?_, ?_, ?_⟩
  · rw [hn, GetResourceRealKeyWithFlag_sep _ _ (by decide), hk,
      SplitMetaNamespaceKey_single _ (by decide)]
  · rw [hs, GetResourceRealKeyWithFlag_sep _ _ (by decide), hk,
      SplitMetaNamespaceKey_single _ (by decide)]
  · rw [hc, GetResourceRealKeyWithFlag_sep _ _ (by decide), hk,
      SplitMetaNamespaceKey_single _ (by decide)]

theorem C17_kind_prefixed_key_misparsed_witness :
    GetResourceRealKeyWithFlag (NamespacePrefix ++ "a/b/c".toList)
      = ("Namespace".toList, [], "Namespace".toList, "a/b/c".toList, none) ∧
    GetResourceRealKeyWithFlag (ServicePrefix ++ "a/b/c".toList)
      = ("Service".toList, [], "Service".toList, "a/b/c".toList, none) ∧
    GetResourceRealKeyWithFlag (ConfigMapPrefix ++ "a/b/c".toList)
      = ("ConfigMap".toList, [], "ConfigMap".toList, "a/b/c".toList, none) :=
  C17_kind_prefixed_key_misparsed "a/b/c".toList (by decide)

/-! ## Tombstones -/

/-- Claim C18: for a tombstone with stored key `k`, whatever object it wraps,
`GenObjectQueueKey` returns `k` and `GenQueueKeyWithFlag` returns `k`, `~`, flag, both
without error, and `GenResourceMapQueueKey` returns the empty key with its
unsupported-type error. -/
theorem C18_tombstone_not_kind_taggable (k flag : Str) (o : Obj) :
    GenObjectQueueKey (.DeletedFinalStateUnknown k o) = (k, none) ∧
    GenQueueKeyWithFlag (.DeletedFinalStateUnknown k o) flag
      = (k ++ "~".toList ++ flag, none) ∧
    GenResourceMapQueueKey (.DeletedFinalStateUnknown k o)
      = ([], some .notInvalidKubernetesResourceType) := by
  refine ⟨?_, ?_, ?_⟩
  · simp [GenObjectQueueKey, keyFunc, DeletionHandlingMetaNamespaceKeyFunc]
  · simp [GenQueueKeyWithFlag, keyFunc, DeletionHandlingMetaNamespaceKeyFunc]
  · simp [GenResourceMapQueueKey, keyFunc, DeletionHandlingMetaNamespaceKeyFunc]

/-! ## Output invariant of the decoder -/

/-- Claim C19: on every key for which the decoder returns no error, none of the four
returned strings has a `~`, the returned namespace and name have no `/`, and the
returned base key is a prefix of the key; and a key `b~f~g` is decoded as `b~f` is,
the part from the second `~` on being dropped. -/
theorem C19_decoder_output_invariant :
    (∀ key : Str, (GetResourceRealKeyWithFlag key).2.2.2.2 = none →
      '~' ∉ (GetResourceRealKeyWithFlag key).1 ∧
      '~' ∉ (GetResourceRealKeyWithFlag key).2.1 ∧
      '~' ∉ (GetResourceRealKeyWithFlag key).2.2.1 ∧
      '~' ∉ (GetResourceRealKeyWithFlag key).2.2.2.1 ∧
      '/' ∉ (GetResourceRealKeyWithFlag key).2.1 ∧
      '/' ∉ (GetResourceRealKeyWithFlag key).2.2.1 ∧
      (GetResourceRealKeyWithFlag key).1 <+: key) ∧
    (∀ b f g : Str, '~' ∉ b → '~' ∉ f →
      GetResourceRealKeyWithFlag (b ++ '~' :: (f ++ '~' :: g))
        = GetResourceRealKeyWithFlag (b ++ '~' :: f)) := by
  constructor
  · intro key hok
    by_cases hne : key = []
    · subst hne
      simp [GetResourceRealKeyWithFlag]
    · have hr := GetResourceRealKeyWithFlag_eq key hne
      have hseg := (takeWhile_append_dropWhile_sep key '~').1
      have hflag := (takeWhile_append_dropWhile_sep
        ((key.dropWhile (fun c => c != '~')).drop 1) '~').1
      have hpre := List.takeWhile_prefix (l := key) (fun c => c != '~')
      rcases hs : SplitMetaNamespaceKey (key.takeWhile (fun c => c != '~'))
        with ⟨ns, service, _ | err⟩
      · rw [hs] at hr
        simp only at hr
        rw [hr]
        simp only
        rcases SplitMetaNamespaceKey_ok _ _ _ hs with ⟨hno, h1, h2⟩ | ⟨h1, h2, h3⟩
        · subst h1
          rw [h2]
          exact ⟨hseg, by simp, hseg, hflag, by simp, hno, hpre⟩
        · have hns : '~' ∉ ns := fun hm => hseg (by rw [h1]; simp [hm])
          have hname : '~' ∉ service := fun hm => hseg (by rw [h1]; simp [hm])
          exact ⟨hseg, hns, hname, hflag, h2, h3, hpre⟩
      · rw [hs] at hr
        rw [hr] at hok
        simp at hok
  · intro b f g hb hf
    rw [GetResourceRealKeyWithFlag_sep b _ hb, GetResourceRealKeyWithFlag_sep b f hb,
      takeWhile_append_sep f g '~' hf, takeWhile_of_not_mem f '~' hf]

theorem C19_decoder_output_invariant_witness :
    '~' ∉ (GetResourceRealKeyWithFlag "ns1/svcA~1~2".toList).2.2.2.1 ∧
    (GetResourceRealKeyWithFlag "ns1/svcA~1~2".toList).1 <+: "ns1/svcA~1~2".toList ∧
    GetResourceRealKeyWithFlag ("ns1/svcA".toList ++ '~' :: ("1".toList ++ '~' :: "2".toList))
      = GetResourceRealKeyWithFlag ("ns1/svcA".toList ++ '~' :: "1".toList) :=
  ⟨(C19_decoder_output_invariant.1 "ns1/svcA~1~2".toList (by decide)).2.2.2.1,
    (C19_decoder_output_invariant.1 "ns1/svcA~1~2".toList (by decide)).2.2.2.2.2.2,
    C19_decoder_output_invariant.2 "ns1/svcA".toList "1".toList "2".toList
      (by decide) (by decide)⟩

/-! ## Annotation override -/

/-- Claim C20: `GetNamespace` returns the value of the override annotation when the
annotation is present with a non-empty value, and the own namespace of the Service
when the annotation is absent, present with an empty value, or when there are no
annotations; so its result is empty only if the own namespace is empty.
`GetServiceName` does the same with its annotation and the own name. -/
theorem C20_annotation_override (kNamespace kService : Str) (svr : ObjectMeta) :
    (∀ v, svr.Annotations.lookup kNamespace = some v → v ≠ [] →
      GetNamespace kNamespace svr = v) ∧
    (svr.Annotations.lookup kNamespace = none →
      GetNamespace kNamespace svr = svr.Namespace) ∧
    (svr.Annotations.lookup kNamespace = some [] →
      GetNamespace kNamespace svr = svr.Namespace) ∧
    (svr.Annotations = [] → GetNamespace kNamespace svr = svr.Namespace) ∧
    (GetNamespace kNamespace svr = [] → svr.Namespace = []) ∧
    (∀ v, svr.Annotations.lookup kService = some v → v ≠ [] →
      GetServiceName kService svr = v) ∧
    (svr.Annotations.lookup kService = none → GetServiceName kService svr = svr.Name) ∧
    (svr.Annotations.lookup kService = some [] → GetServiceName kService svr = svr.Name) ∧
    (svr.Annotations = [] → GetServiceName kService svr = svr.Name) ∧
    (GetServiceName kService svr = [] → svr.Name = []) := by
  refine ⟨?_, ?_, ?_, ?_, ?_, ?_, ?_, ?_, ?_, ?_⟩
  · intro v hv hne
    simp [GetNamespace, hv, hne]
  · intro hv
    simp [GetNamespace, hv]
  · intro hv
    simp [GetNamespace, hv]
  · intro hv
    simp [GetNamespace, hv]
  · intro h
    unfold GetNamespace at h
    split at h
    · rename_i v hv
      by_cases hne : v = []
      · simpa [hne] using h
      · rw [if_pos hne] at h
        exact absurd h hne
    · exact h
  · intro v hv hne
    simp [GetServiceName, hv, hne]
  · intro hv
    simp [GetServiceName, hv]
  · intro hv
    simp [GetServiceName, hv]
  · intro hv
    simp [GetServiceName, hv]
  · intro h
    unfold GetServiceName at h
    split at h
    · rename_i v hv
      by_cases hne : v = []
      · simpa [hne] using h
      · rw [if_pos hne] at h
        exact absurd h hne
    · exact h

theorem C20_annotation_override_witness :
    GetNamespace "override-ns".toList
      ⟨"default".toList, "web".toList, [("override-ns".toList, "prod".toList)]⟩
      = "prod".toList ∧
    GetNamespace "override-ns".toList
      ⟨"default".toList, "web".toList, [("other".toList, "x".toList)]⟩ = "default".toList ∧
    GetNamespace "override-ns".toList
      ⟨"default".toList, "web".toList, [("override-ns".toList, [])]⟩ = "default".toList ∧
    GetNamespace "override-ns".toList ⟨"default".toList, "web".toList, []⟩
      = "default".toList ∧
    GetServiceName "override-svc".toList
      ⟨"default".toList, "web".toList, [("override-svc".toList, "api".toList)]⟩
      = "api".toList ∧
    GetServiceName "override-svc".toList
      ⟨"default".toList, "web".toList, [("override-svc".toList, [])]⟩ = "web".toList :=
  ⟨(C20_annotation_override "override-ns".toList "override-svc".toList
      ⟨"default".toList, "web".toList, [("override-ns".toList, "prod".toList)]⟩).1
      _ (by decide) (by decide),
    (C20_annotation_override "override-ns".toList "override-svc".toList
      ⟨"default".toList, "web".toList, [("other".toList, "x".toList)]⟩).2.1 (by decide),
    (C20_annotation_override "override-ns".toList "override-svc".toList
      ⟨"default".toList, "web".toList, [("override-ns".toList, [])]⟩).2.2.1 (by decide),
    (C20_annotation_override "override-ns".toList "override-svc".toList
      ⟨"default".toList, "web".toList, []⟩).2.2.2.1 rfl,
    (C20_annotation_override "override-ns".toList "override-svc".toList
      ⟨"default".toList, "web".toList, [("override-svc".toList, "api".toList)]⟩).2.2.2.2.2.1
      _ (by decide) (by decide),
    (C20_annotation_override "override-ns".toList "override-svc".toList
      ⟨"default".toList, "web".toList, [("override-svc".toList, [])]⟩).2.2.2.2.2.2.2.1
      (by decide)⟩

end Polaris
